import Mathlib

/-!
Shallow embedding of the vaultflow ledger state machine (src/main.go).

The Go program keeps `accounts : map[string]int` (current balance of each
account) and `history : []map[string]int` (past states for rollback), both
guarded by one mutex.  We model the map as an association list updated in
place (`setBal` rewrites the first entry with the given key, which agrees
with Go map semantics since a Go map never holds a duplicate key), and each
operation as a pure function returning the post-call machine together with
an optional error.  Go's `int` is 64-bit with two's-complement wrapping,
so every addition and subtraction the source performs on a balance goes
through `wrap`, which reduces the exact integer result into
[-2^63, 2^63-1] modulo 2^64.  The mutex is not part of the sequential
model.
-/

namespace Vaultflow

/-- The account table: account identifier to current balance. -/
abbrev Table := List (String × Int)

/-- Balance lookup, `sm.accounts[accountId]`'s comma-ok form. -/
def getBal? : Table → String → Option Int
  | [], _ => none
  | (k', v) :: rest, k => if k' = k then some v else getBal? rest k

/-- Balance read `sm.accounts[accountId]` (only used after an existence
check in the source, so the default 0 is never observed there). -/
def getBal (t : Table) (k : String) : Int :=
  (getBal? t k).getD 0

/-- In-place update `sm.accounts[k] = v`: rewrite the entry holding key `k`.
If the key is absent the table is unchanged (the source only writes keys it
has just checked to exist, where this difference from Go's insert-on-write
is unobservable). -/
def setBal : Table → String → Int → Table
  | [], _, _ => []
  | (k', v') :: rest, k, v =>
    if k' = k then (k, v) :: rest else (k', v') :: setBal rest k v

/-- Largest value of Go's 64-bit `int`: 2^63 - 1. -/
def intMax : Int := 9223372036854775807

/-- Smallest value of Go's 64-bit `int`: -2^63. -/
def intMin : Int := -9223372036854775808

/-- 2^64, the modulus of Go's 64-bit `int` arithmetic. -/
def twoPow64 : Int := 18446744073709551616

/-- Two's-complement wrap of Go's 64-bit `int` addition/subtraction: the
exact integer result reduced into [-2^63, 2^63-1] modulo 2^64. -/
def wrap (x : Int) : Int :=
  (x + 9223372036854775808) % 18446744073709551616 - 9223372036854775808

/-- Read-modify-write `sm.accounts[k] += d`, wrapping as Go's `int` does. -/
def adjust (t : Table) (k : String) (d : Int) : Table :=
  setBal t k (wrap (getBal t k + d))

/-- The distinct error results the Go functions return (each constructor is
one `fmt.Errorf` site of src/main.go). -/
inductive SMError where
  | invalidDeposit (accountId : String)
  | invalidWithdraw (accountId : String)
  | insufficientBalance (currentBalance : Int)
  | invalidSender (fromAccountId : String)
  | invalidReceiver (toAccountId : String)
  | insufficientTransfer (currentBalanceOfSender amount : Int)
  | nothingToRollback
  deriving DecidableEq, Repr

/-- The spec's `UnknownAccount` error kind: the four invalid-account errors. -/
def SMError.isUnknownAccount : SMError → Bool
  | .invalidDeposit _ => true
  | .invalidWithdraw _ => true
  | .invalidSender _ => true
  | .invalidReceiver _ => true
  | _ => false

/-- The spec's `InsufficientFunds` error kind: the two insufficient-balance
errors. -/
def SMError.isInsufficientFunds : SMError → Bool
  | .insufficientBalance _ => true
  | .insufficientTransfer _ _ => true
  | _ => false

/-- `StateMachine` of src/main.go, minus the mutex (the model is
sequential). -/
structure StateMachine where
  accounts : Table
  history : List Table
  deriving DecidableEq, Repr

/-- `saveState`: append a snapshot of the current table to the history. -/
def saveState (sm : StateMachine) : StateMachine :=
  { sm with history := sm.history ++ [sm.accounts] }

/-- `Deposit`: snapshot, check the account exists, add the amount.  The
returned machine is the receiver's state after the call, error or not. -/
def Deposit (sm : StateMachine) (accountId : String) (amount : Int) :
    StateMachine × Option SMError :=
  let sm1 := saveState sm
  match getBal? sm1.accounts accountId with
  | none => (sm1, some (.invalidDeposit accountId))
  | some _ => ({ sm1 with accounts := adjust sm1.accounts accountId amount }, none)

/-- `Withdraw`: snapshot, check existence, check sufficient balance,
subtract the amount (wrapping as Go's `int` does). -/
def Withdraw (sm : StateMachine) (accountId : String) (amount : Int) :
    StateMachine × Option SMError :=
  let sm1 := saveState sm
  match getBal? sm1.accounts accountId with
  | none => (sm1, some (.invalidWithdraw accountId))
  | some currentBalance =>
    if currentBalance < amount then
      (sm1, some (.insufficientBalance currentBalance))
    else
      ({ sm1 with
          accounts := setBal sm1.accounts accountId (wrap (currentBalance - amount)) }, none)

/-- `Transfer`: snapshot, check sender then receiver exist, check the
sender's balance, then debit the sender and credit the receiver. -/
def Transfer (sm : StateMachine) (fromAccountId toAccountId : String) (amount : Int) :
    StateMachine × Option SMError :=
  let sm1 := saveState sm
  match getBal? sm1.accounts fromAccountId with
  | none => (sm1, some (.invalidSender fromAccountId))
  | some _ =>
    match getBal? sm1.accounts toAccountId with
    | none => (sm1, some (.invalidReceiver toAccountId))
    | some _ =>
      let currentBalanceOfSender := getBal sm1.accounts fromAccountId
      if currentBalanceOfSender < amount then
        (sm1, some (.insufficientTransfer currentBalanceOfSender amount))
      else
        let acc1 := adjust sm1.accounts fromAccountId (-amount)
        let acc2 := adjust acc1 toAccountId amount
        ({ sm1 with accounts := acc2 }, none)

/-- `Rollback`: pop the most recent snapshot and make it the live table;
error when the history is empty. -/
def Rollback (sm : StateMachine) : StateMachine × Option SMError :=
  match sm.history.getLast? with
  | none => (sm, some .nothingToRollback)
  | some lastState => ({ accounts := lastState, history := sm.history.dropLast }, none)

/-- One call against the state machine, for reasoning about sequences. -/
inductive Op where
  | deposit (accountId : String) (amount : Int)
  | withdraw (accountId : String) (amount : Int)
  | transfer (fromAccountId toAccountId : String) (amount : Int)
  | rollback
  deriving DecidableEq, Repr

/-- Dispatch one call. -/
def applyOp (sm : StateMachine) : Op → StateMachine × Option SMError
  | .deposit accountId amount => Deposit sm accountId amount
  | .withdraw accountId amount => Withdraw sm accountId amount
  | .transfer fromId toId amount => Transfer sm fromId toId amount
  | .rollback => Rollback sm

/-- Is the call one of the three snapshot-taking mutators? -/
def Op.isMutating : Op → Bool
  | .rollback => false
  | _ => true

/-- The amount a call carries (0 for rollback). -/
def Op.amount : Op → Int
  | .deposit _ a => a
  | .withdraw _ a => a
  | .transfer _ _ a => a
  | .rollback => 0

/-- The amount a call can add to the sum of all balances (the deposit
amount; 0 for the other calls, which never increase the sum when their
amounts are non-negative). -/
def Op.depositAmount : Op → Int
  | .deposit _ a => a
  | _ => 0

/-- Net effect of a successful call on the sum of all balances. -/
def Op.delta : Op → Int
  | .deposit _ a => a
  | .withdraw _ a => -a
  | .transfer _ _ _ => 0
  | .rollback => 0

/-- A machine as constructed in the source: the caller's initial table and
an empty history. -/
def mkMachine (init : Table) : StateMachine :=
  { accounts := init, history := [] }

/-- Run a sequence of calls from a given machine, keeping the state whether
or not each call succeeds (the Go methods mutate the receiver even on a
failed call). -/
def runFrom (sm : StateMachine) (ops : List Op) : StateMachine :=
  ops.foldl (fun sm op => (applyOp sm op).1) sm

/-- Run a sequence of calls against a freshly constructed machine. -/
def run (init : Table) (ops : List Op) : StateMachine :=
  runFrom (mkMachine init) ops

/-- Run a sequence of calls, stopping with `none` if any call fails. -/
def runOk (sm : StateMachine) : List Op → Option StateMachine
  | [] => some sm
  | op :: rest =>
    match applyOp sm op with
    | (sm', none) => runOk sm' rest
    | (_, some _) => none

/-- Iterated rollback: `rollbacks sm k` is the machine after `k` Rollback
calls (each call's state component is kept, error or not). -/
def rollbacks (sm : StateMachine) : Nat → StateMachine
  | 0 => sm
  | k + 1 => (Rollback (rollbacks sm k)).1

/-- The key column of a table. -/
def keys (t : Table) : List String :=
  t.map Prod.fst

/-- Sum of all balances in a table. -/
def total (t : Table) : Int :=
  (t.map Prod.snd).sum

/-- Every balance in the table is non-negative. -/
def NonNeg (t : Table) : Prop :=
  ∀ p ∈ t, 0 ≤ p.2

instance (t : Table) : Decidable (NonNeg t) :=
  inferInstanceAs (Decidable (∀ p ∈ t, 0 ≤ p.2))

/-- Every balance in the table is a representable 64-bit `int` value (true
of every table a run of the Go program can hold). -/
def InRange (t : Table) : Prop :=
  ∀ p ∈ t, intMin ≤ p.2 ∧ p.2 ≤ intMax

instance (t : Table) : Decidable (InRange t) :=
  inferInstanceAs (Decidable (∀ p ∈ t, intMin ≤ p.2 ∧ p.2 ≤ intMax))

/-- Total of the deposit amounts of a call sequence: an upper bound on how
much the sequence can add to the sum of all balances. -/
def depositSum (ops : List Op) : Int :=
  (ops.map Op.depositAmount).sum

/-- The three-account table the source's driver constructs. -/
def initTable : Table :=
  [("acc1", 1000), ("acc2", 500), ("acc3", 300)]

/-- The key-set invariant: the live table and every history snapshot carry
exactly the construction-time keys. -/
def KeysInv (init : Table) (sm : StateMachine) : Prop :=
  keys sm.accounts = keys init ∧ ∀ t ∈ sm.history, keys t = keys init


/-! Section: Table lemmas -/

theorem keys_setBal (t : Table) (k : String) (v : Int) : keys (setBal t k v) = keys t := by
  induction t with
  | nil => rfl
  | cons p rest ih =>
    obtain ⟨k', v'⟩ := p
    by_cases h : k' = k
    · simp [setBal, h, keys]
    · simp only [setBal, if_neg h, keys, List.map_cons] at ih ⊢
      rw [ih]

theorem getBal?_eq_none_iff (t : Table) (k : String) : getBal? t k = none ↔ k ∉ keys t := by
  induction t with
  | nil => simp [getBal?, keys]
  | cons p rest ih =>
    obtain ⟨k', v'⟩ := p
    show (if k' = k then some v' else getBal? rest k) = none ↔ k ∉ k' :: keys rest
    by_cases h : k' = k
    · subst h
      simp
    · rw [if_neg h, ih]
      constructor
      · intro hnot hmem
        rcases List.mem_cons.mp hmem with rfl | hmem
        · exact h rfl
        · exact hnot hmem
      · intro hnot hmem
        exact hnot (List.mem_cons_of_mem _ hmem)

theorem getBal?_isSome_iff (t : Table) (k : String) :
    (getBal? t k).isSome = true ↔ k ∈ keys t := by
  rw [Option.isSome_iff_ne_none, Ne, getBal?_eq_none_iff, not_not]

theorem getBal?_setBal_self (t : Table) (k : String) (v : Int)
    (h : (getBal? t k).isSome = true) : getBal? (setBal t k v) k = some v := by
  induction t with
  | nil => simp [getBal?] at h
  | cons p rest ih =>
    obtain ⟨k', v'⟩ := p
    by_cases hk : k' = k
    · simp [setBal, getBal?, hk]
    · simp only [setBal, if_neg hk, getBal?] at h ⊢
      exact ih h

theorem getBal?_setBal_ne (t : Table) (k₀ k : String) (v : Int) (h : k₀ ≠ k) :
    getBal? (setBal t k₀ v) k = getBal? t k := by
  induction t with
  | nil => rfl
  | cons p rest ih =>
    obtain ⟨k', v'⟩ := p
    by_cases hk : k' = k₀
    · subst hk
      simp [setBal, getBal?, h]
    · simp only [setBal, if_neg hk, getBal?]
      by_cases hkk : k' = k
      · simp [hkk]
      · simp [hkk, ih]

theorem total_setBal (t : Table) (k : String) (v b : Int) (h : getBal? t k = some b) :
    total (setBal t k v) = total t + v - b := by
  induction t with
  | nil => simp [getBal?] at h
  | cons p rest ih =>
    obtain ⟨k', v'⟩ := p
    by_cases hk : k' = k
    · simp only [getBal?, if_pos hk, Option.some.injEq] at h
      subst h
      simp only [setBal, if_pos hk, total, List.map_cons, List.sum_cons]
      ring
    · simp only [getBal?, if_neg hk] at h
      simp only [setBal, if_neg hk, total, List.map_cons, List.sum_cons]
      have := ih h
      simp only [total] at this
      rw [this]
      ring

theorem getBal_nonneg (t : Table) (k : String) (h : NonNeg t) : 0 ≤ getBal t k := by
  induction t with
  | nil => simp [getBal, getBal?]
  | cons p rest ih =>
    obtain ⟨k', v'⟩ := p
    by_cases hk : k' = k
    · have hv := h (k', v') (List.mem_cons_self _ _)
      simpa [getBal, getBal?, hk] using hv
    · have hrest : NonNeg rest := fun q hq => h q (List.mem_cons_of_mem _ hq)
      simpa [getBal, getBal?, hk] using ih hrest

theorem nonNeg_setBal (t : Table) (k : String) (v : Int) (ht : NonNeg t) (hv : 0 ≤ v) :
    NonNeg (setBal t k v) := by
  induction t with
  | nil => exact ht
  | cons p rest ih =>
    obtain ⟨k', v'⟩ := p
    have htail : NonNeg rest := fun q hq => ht q (List.mem_cons_of_mem _ hq)
    intro q hq
    by_cases hk : k' = k
    · simp only [setBal, if_pos hk, List.mem_cons] at hq
      rcases hq with rfl | hq
      · exact hv
      · exact htail q hq
    · simp only [setBal, if_neg hk, List.mem_cons] at hq
      rcases hq with rfl | hq
      · exact ht _ (List.mem_cons_self _ _)
      · exact ih htail q hq

theorem mem_of_getLast?' {α : Type} (l : List α) (a : α) (h : l.getLast? = some a) :
    a ∈ l := by
  rcases l.eq_nil_or_concat with rfl | ⟨L, b, rfl⟩
  · simp at h
  · rw [List.concat_eq_append, List.getLast?_concat] at h
    injection h with h
    subst h
    simp

theorem mem_of_getBal? (t : Table) (k : String) (b : Int) (h : getBal? t k = some b) :
    (k, b) ∈ t := by
  induction t with
  | nil => simp [getBal?] at h
  | cons p rest ih =>
    obtain ⟨k', v'⟩ := p
    by_cases hk : k' = k
    · simp only [getBal?, if_pos hk] at h
      obtain rfl : v' = b := by injection h
      obtain rfl : k' = k := hk
      exact List.mem_cons_self _ _
    · simp only [getBal?, if_neg hk] at h
      exact List.mem_cons_of_mem _ (ih h)

theorem total_nonneg (t : Table) (h : NonNeg t) : 0 ≤ total t := by
  induction t with
  | nil => simp [total]
  | cons p rest ih =>
    have h0 := h p (List.mem_cons_self _ _)
    have h1 := ih (fun q hq => h q (List.mem_cons_of_mem _ hq))
    simp only [total, List.map_cons, List.sum_cons] at h1 ⊢
    omega

theorem getBal_le_total (t : Table) (k : String) (h : NonNeg t) : getBal t k ≤ total t := by
  induction t with
  | nil => simp [getBal, getBal?, total]
  | cons p rest ih =>
    obtain ⟨k', v'⟩ := p
    have hv : 0 ≤ v' := h (k', v') (List.mem_cons_self _ _)
    have hrest : NonNeg rest := fun q hq => h q (List.mem_cons_of_mem _ hq)
    have htot := total_nonneg rest hrest
    simp only [total] at htot
    by_cases hk : k' = k
    · simp only [getBal, getBal?, if_pos hk, Option.getD_some, total, List.map_cons,
        List.sum_cons]
      omega
    · have hle := ih hrest
      simp only [getBal, total, List.map_cons, List.sum_cons] at hle ⊢
      simp only [getBal?, if_neg hk]
      omega

theorem wrap_eq_self (x : Int) (h1 : intMin ≤ x) (h2 : x ≤ intMax) : wrap x = x := by
  simp only [wrap, intMin, intMax] at h1 h2 ⊢
  omega

theorem wrap_eq_self_of_nonneg (x : Int) (h1 : 0 ≤ x) (h2 : x ≤ intMax) : wrap x = x :=
  wrap_eq_self x (by simp only [intMin]; omega) h2

theorem wrap_emod (x : Int) : wrap x % twoPow64 = x % twoPow64 := by
  simp only [wrap, twoPow64]
  omega

theorem depositSum_nonneg (ops : List Op) (h : ∀ op ∈ ops, 0 ≤ op.amount) :
    0 ≤ depositSum ops := by
  induction ops with
  | nil => simp [depositSum]
  | cons op rest ih =>
    have h1 : 0 ≤ op.depositAmount := by
      cases op with
      | deposit i a => simpa [Op.depositAmount] using h _ (List.mem_cons_self _ _)
      | withdraw i a => simp [Op.depositAmount]
      | transfer f t a => simp [Op.depositAmount]
      | rollback => simp [Op.depositAmount]
    have h2 := ih (fun o ho => h o (List.mem_cons_of_mem _ ho))
    simp only [depositSum, List.map_cons, List.sum_cons] at h2 ⊢
    omega

theorem depositSum_cons (op : Op) (rest : List Op) :
    depositSum (op :: rest) = op.depositAmount + depositSum rest := by
  simp [depositSum]

/-! Section: Machine lemmas -/

theorem applyOp_history (sm : StateMachine) (op : Op) (h : op.isMutating = true) :
    (applyOp sm op).1.history = sm.history ++ [sm.accounts] := by
  cases op with
  | rollback => simp [Op.isMutating] at h
  | deposit accountId amount =>
    simp only [applyOp, Deposit, saveState]
    cases getBal? sm.accounts accountId <;> rfl
  | withdraw accountId amount =>
    simp only [applyOp, Withdraw, saveState]
    cases getBal? sm.accounts accountId with
    | none => rfl
    | some currentBalance =>
      by_cases hc : currentBalance < amount <;> simp [hc]
  | transfer fromId toId amount =>
    simp only [applyOp, Transfer, saveState]
    cases getBal? sm.accounts fromId with
    | none => rfl
    | some bf =>
      cases getBal? sm.accounts toId with
      | none => rfl
      | some bt =>
        by_cases hc : getBal sm.accounts fromId < amount <;> simp [hc]

theorem applyOp_accounts_keys (sm : StateMachine) (op : Op) (h : op.isMutating = true) :
    keys (applyOp sm op).1.accounts = keys sm.accounts := by
  cases op with
  | rollback => simp [Op.isMutating] at h
  | deposit accountId amount =>
    simp only [applyOp, Deposit, saveState]
    cases getBal? sm.accounts accountId with
    | none => rfl
    | some b => simp [adjust, keys_setBal]
  | withdraw accountId amount =>
    simp only [applyOp, Withdraw, saveState]
    cases getBal? sm.accounts accountId with
    | none => rfl
    | some currentBalance =>
      by_cases hc : currentBalance < amount <;> simp [hc, keys_setBal]
  | transfer fromId toId amount =>
    simp only [applyOp, Transfer, saveState]
    cases getBal? sm.accounts fromId with
    | none => rfl
    | some bf =>
      cases getBal? sm.accounts toId with
      | none => rfl
      | some bt =>
        by_cases hc : getBal sm.accounts fromId < amount <;> simp [hc, adjust, keys_setBal]

theorem Rollback_concat (acc t : Table) (hist : List Table) :
    Rollback { accounts := acc, history := hist ++ [t] } =
      ({ accounts := t, history := hist }, none) := by
  simp [Rollback, List.getLast?_concat, List.dropLast_concat]

theorem Rollback_empty (sm : StateMachine) (h : sm.history = []) :
    Rollback sm = (sm, some SMError.nothingToRollback) := by
  simp [Rollback, h]

theorem Rollback_after_mutating (sm : StateMachine) (op : Op) (h : op.isMutating = true) :
    Rollback (applyOp sm op).1 = (sm, none) := by
  have hh := applyOp_history sm op h
  calc Rollback (applyOp sm op).1
      = Rollback { accounts := (applyOp sm op).1.accounts,
                   history := sm.history ++ [sm.accounts] } := by rw [← hh]
    _ = ({ accounts := sm.accounts, history := sm.history }, none) := Rollback_concat _ _ _
    _ = (sm, none) := rfl

/-! Branch equations for the three mutating operations. -/

theorem saveState_accounts (sm : StateMachine) : (saveState sm).accounts = sm.accounts := rfl

theorem saveState_history (sm : StateMachine) :
    (saveState sm).history = sm.history ++ [sm.accounts] := rfl

theorem Deposit_err (sm : StateMachine) (accountId : String) (amount : Int)
    (h : getBal? sm.accounts accountId = none) :
    Deposit sm accountId amount = (saveState sm, some (SMError.invalidDeposit accountId)) := by
  simp [Deposit, saveState_accounts, h]

theorem Deposit_ok (sm : StateMachine) (accountId : String) (amount b : Int)
    (h : getBal? sm.accounts accountId = some b) :
    Deposit sm accountId amount =
      ({ saveState sm with accounts := adjust sm.accounts accountId amount }, none) := by
  simp [Deposit, saveState_accounts, h]

theorem Withdraw_err_unknown (sm : StateMachine) (accountId : String) (amount : Int)
    (h : getBal? sm.accounts accountId = none) :
    Withdraw sm accountId amount = (saveState sm, some (SMError.invalidWithdraw accountId)) := by
  simp [Withdraw, saveState_accounts, h]

theorem Withdraw_err_insufficient (sm : StateMachine) (accountId : String)
    (amount currentBalance : Int)
    (h : getBal? sm.accounts accountId = some currentBalance) (hc : currentBalance < amount) :
    Withdraw sm accountId amount =
      (saveState sm, some (SMError.insufficientBalance currentBalance)) := by
  simp [Withdraw, saveState_accounts, h, hc]

theorem Withdraw_ok (sm : StateMachine) (accountId : String) (amount currentBalance : Int)
    (h : getBal? sm.accounts accountId = some currentBalance) (hc : ¬ currentBalance < amount) :
    Withdraw sm accountId amount =
      ({ saveState sm with
          accounts := setBal sm.accounts accountId (wrap (currentBalance - amount)) },
        none) := by
  simp [Withdraw, saveState_accounts, h, hc]

theorem Transfer_err_sender (sm : StateMachine) (fromId toId : String) (amount : Int)
    (hf : getBal? sm.accounts fromId = none) :
    Transfer sm fromId toId amount = (saveState sm, some (SMError.invalidSender fromId)) := by
  simp [Transfer, saveState_accounts, hf]

theorem Transfer_err_receiver (sm : StateMachine) (fromId toId : String) (amount bf : Int)
    (hf : getBal? sm.accounts fromId = some bf) (ht : getBal? sm.accounts toId = none) :
    Transfer sm fromId toId amount = (saveState sm, some (SMError.invalidReceiver toId)) := by
  simp [Transfer, saveState_accounts, hf, ht]

theorem Transfer_err_insufficient (sm : StateMachine) (fromId toId : String)
    (amount bf bt : Int)
    (hf : getBal? sm.accounts fromId = some bf) (ht : getBal? sm.accounts toId = some bt)
    (hc : getBal sm.accounts fromId < amount) :
    Transfer sm fromId toId amount =
      (saveState sm,
        some (SMError.insufficientTransfer (getBal sm.accounts fromId) amount)) := by
  simp [Transfer, saveState_accounts, hf, ht, hc]

theorem Transfer_ok (sm : StateMachine) (fromId toId : String) (amount bf bt : Int)
    (hf : getBal? sm.accounts fromId = some bf) (ht : getBal? sm.accounts toId = some bt)
    (hc : ¬ getBal sm.accounts fromId < amount) :
    Transfer sm fromId toId amount =
      ({ saveState sm with
          accounts := adjust (adjust sm.accounts fromId (-amount)) toId amount }, none) := by
  simp [Transfer, saveState_accounts, hf, ht, hc]

theorem runFrom_nil (sm : StateMachine) : runFrom sm [] = sm := rfl

theorem runFrom_cons (sm : StateMachine) (op : Op) (ops : List Op) :
    runFrom sm (op :: ops) = runFrom (applyOp sm op).1 ops := rfl

theorem keysInv_applyOp (init : Table) (sm : StateMachine) (op : Op)
    (h : KeysInv init sm) : KeysInv init (applyOp sm op).1 := by
  obtain ⟨hacc, hhist⟩ := h
  cases hop : op.isMutating with
  | true =>
    constructor
    · rw [applyOp_accounts_keys sm op hop, hacc]
    · rw [applyOp_history sm op hop]
      intro t ht
      rcases List.mem_append.mp ht with ht | ht
      · exact hhist t ht
      · rw [List.mem_singleton.mp ht]
        exact hacc
  | false =>
    cases op with
    | rollback =>
      rcases hL : sm.history.getLast? with _ | lastState
      · have : sm.history = [] := by
          rcases sm.history.eq_nil_or_concat with h0 | ⟨L, b, hc⟩
          · exact h0
          · rw [hc, List.concat_eq_append, List.getLast?_concat] at hL
            exact absurd hL (by simp)
        simp only [applyOp, Rollback_empty sm this]
        exact ⟨hacc, hhist⟩
      · have hmem : lastState ∈ sm.history := mem_of_getLast?' _ _ hL
        simp only [applyOp, Rollback, hL]
        refine ⟨hhist lastState hmem, ?_⟩
        intro t ht
        exact hhist t (List.dropLast_subset _ ht)
    | deposit accountId amount => simp [Op.isMutating] at hop
    | withdraw accountId amount => simp [Op.isMutating] at hop
    | transfer fromId toId amount => simp [Op.isMutating] at hop

theorem keysInv_runFrom (init : Table) (sm : StateMachine) (ops : List Op)
    (h : KeysInv init sm) : KeysInv init (runFrom sm ops) := by
  induction ops generalizing sm with
  | nil => exact h
  | cons op rest ih =>
    rw [runFrom_cons]
    exact ih _ (keysInv_applyOp init sm op h)

theorem keysInv_run (init : Table) (ops : List Op) : KeysInv init (run init ops) :=
  keysInv_runFrom init (mkMachine init) ops ⟨rfl, by intro t ht; simp [mkMachine] at ht⟩

/-! Section: Non-negativity preservation.  With wrapping arithmetic a
balance stays non-negative only while no addition overflows, so the
invariant carries an upper bound: every table's total, plus the deposit
amounts still to come, stays at most intMax.  Since all balances are
non-negative, each single balance is bounded by the table's total, so no
wrap ever fires. -/

theorem bounded_applyOp (sm : StateMachine) (op : Op) (s : Int)
    (hamt : 0 ≤ op.amount) (hs : 0 ≤ s)
    (hacc : NonNeg sm.accounts)
    (hbound : total sm.accounts + op.depositAmount + s ≤ intMax)
    (hhist : ∀ t ∈ sm.history, NonNeg t ∧ total t + op.depositAmount + s ≤ intMax) :
    (NonNeg (applyOp sm op).1.accounts ∧ total (applyOp sm op).1.accounts + s ≤ intMax)
  ∧ ∀ t ∈ (applyOp sm op).1.history, NonNeg t ∧ total t + s ≤ intMax := by
  have hdep : 0 ≤ op.depositAmount := by
    cases op with
    | deposit i a => simpa [Op.depositAmount, Op.amount] using hamt
    | withdraw i a => simp [Op.depositAmount]
    | transfer f t a => simp [Op.depositAmount]
    | rollback => simp [Op.depositAmount]
  have hhist' : ∀ t ∈ sm.history ++ [sm.accounts], NonNeg t ∧ total t + s ≤ intMax := by
    intro t ht
    rcases List.mem_append.mp ht with ht | ht
    · obtain ⟨h1, h2⟩ := hhist t ht
      exact ⟨h1, by omega⟩
    · rw [List.mem_singleton.mp ht]
      exact ⟨hacc, by omega⟩
  cases op with
  | deposit accountId amount =>
    simp only [Op.amount] at hamt
    simp only [Op.depositAmount] at hbound
    simp only [applyOp]
    rcases hb : getBal? sm.accounts accountId with _ | b
    · rw [Deposit_err sm accountId amount hb]
      exact ⟨⟨hacc, by show total sm.accounts + s ≤ intMax; omega⟩, hhist'⟩
    · rw [Deposit_ok sm accountId amount b hb]
      have hg : getBal sm.accounts accountId = b := by simp [getBal, hb]
      have hb0 : 0 ≤ b := by
        have h0 := getBal_nonneg sm.accounts accountId hacc
        omega
      have hbt : b ≤ total sm.accounts := by
        have h0 := getBal_le_total sm.accounts accountId hacc
        omega
      have hw : wrap (getBal sm.accounts accountId + amount) = b + amount := by
        rw [hg]
        exact wrap_eq_self_of_nonneg _ (by omega) (by omega)
      refine ⟨⟨?_, ?_⟩, ?_⟩
      · show NonNeg (adjust sm.accounts accountId amount)
        rw [adjust, hw]
        exact nonNeg_setBal _ _ _ hacc (by omega)
      · show total (adjust sm.accounts accountId amount) + s ≤ intMax
        rw [adjust, hw, total_setBal sm.accounts accountId _ b hb]
        omega
      · show ∀ t ∈ sm.history ++ [sm.accounts], NonNeg t ∧ total t + s ≤ intMax
        exact hhist'
  | withdraw accountId amount =>
    simp only [Op.amount] at hamt
    simp only [Op.depositAmount] at hbound
    simp only [applyOp]
    rcases hb : getBal? sm.accounts accountId with _ | cb
    · rw [Withdraw_err_unknown sm accountId amount hb]
      exact ⟨⟨hacc, by show total sm.accounts + s ≤ intMax; omega⟩, hhist'⟩
    · by_cases hc : cb < amount
      · rw [Withdraw_err_insufficient sm accountId amount cb hb hc]
        exact ⟨⟨hacc, by show total sm.accounts + s ≤ intMax; omega⟩, hhist'⟩
      · rw [Withdraw_ok sm accountId amount cb hb hc]
        have hbt : cb ≤ total sm.accounts := by
          have hg : getBal sm.accounts accountId = cb := by simp [getBal, hb]
          have h0 := getBal_le_total sm.accounts accountId hacc
          omega
        have hw : wrap (cb - amount) = cb - amount :=
          wrap_eq_self_of_nonneg _ (by omega) (by omega)
        refine ⟨⟨?_, ?_⟩, ?_⟩
        · show NonNeg (setBal sm.accounts accountId (wrap (cb - amount)))
          rw [hw]
          exact nonNeg_setBal _ _ _ hacc (by omega)
        · show total (setBal sm.accounts accountId (wrap (cb - amount))) + s ≤ intMax
          rw [hw, total_setBal sm.accounts accountId _ cb hb]
          omega
        · show ∀ t ∈ sm.history ++ [sm.accounts], NonNeg t ∧ total t + s ≤ intMax
          exact hhist'
  | transfer fromId toId amount =>
    simp only [Op.amount] at hamt
    simp only [Op.depositAmount] at hbound
    simp only [applyOp]
    rcases hf : getBal? sm.accounts fromId with _ | bf
    · rw [Transfer_err_sender sm fromId toId amount hf]
      exact ⟨⟨hacc, by show total sm.accounts + s ≤ intMax; omega⟩, hhist'⟩
    · rcases ht : getBal? sm.accounts toId with _ | bt
      · rw [Transfer_err_receiver sm fromId toId amount bf hf ht]
        exact ⟨⟨hacc, by show total sm.accounts + s ≤ intMax; omega⟩, hhist'⟩
      · by_cases hc : getBal sm.accounts fromId < amount
        · rw [Transfer_err_insufficient sm fromId toId amount bf bt hf ht hc]
          exact ⟨⟨hacc, by show total sm.accounts + s ≤ intMax; omega⟩, hhist'⟩
        · rw [Transfer_ok sm fromId toId amount bf bt hf ht hc]
          have hg : getBal sm.accounts fromId = bf := by simp [getBal, hf]
          rw [hg] at hc
          have hbt : bf ≤ total sm.accounts := by
            have h0 := getBal_le_total sm.accounts fromId hacc
            omega
          have hw1 : wrap (getBal sm.accounts fromId + -amount) = bf - amount := by
            rw [hg]
            have he : bf + -amount = bf - amount := by ring
            rw [he]
            exact wrap_eq_self_of_nonneg _ (by omega) (by omega)
          have hnn1 : NonNeg (adjust sm.accounts fromId (-amount)) := by
            rw [adjust, hw1]
            exact nonNeg_setBal _ _ _ hacc (by omega)
          have htot1 : total (adjust sm.accounts fromId (-amount)) =
              total sm.accounts - amount := by
            rw [adjust, hw1, total_setBal sm.accounts fromId _ bf hf]
            omega
          obtain ⟨g, hg2⟩ : ∃ g, getBal? (adjust sm.accounts fromId (-amount)) toId =
              some g := by
            by_cases hft : fromId = toId
            · subst hft
              exact ⟨wrap (getBal sm.accounts fromId + -amount),
                by rw [adjust]; exact getBal?_setBal_self _ _ _ (by rw [hf]; rfl)⟩
            · exact ⟨bt, by rw [adjust, getBal?_setBal_ne _ _ _ _ hft, ht]⟩
          have hg3 : getBal (adjust sm.accounts fromId (-amount)) toId = g := by
            simp [getBal, hg2]
          have hg0 : 0 ≤ g := by
            have h0 := getBal_nonneg (adjust sm.accounts fromId (-amount)) toId hnn1
            omega
          have hgt : g ≤ total (adjust sm.accounts fromId (-amount)) := by
            have h0 := getBal_le_total (adjust sm.accounts fromId (-amount)) toId hnn1
            omega
          have hw2 : wrap (getBal (adjust sm.accounts fromId (-amount)) toId + amount) =
              g + amount := by
            rw [hg3]
            exact wrap_eq_self_of_nonneg _ (by omega) (by omega)
          refine ⟨⟨?_, ?_⟩, ?_⟩
          · show NonNeg (adjust (adjust sm.accounts fromId (-amount)) toId amount)
            rw [adjust, hw2]
            exact nonNeg_setBal _ _ _ hnn1 (by omega)
          · show total (adjust (adjust sm.accounts fromId (-amount)) toId amount) + s ≤
              intMax
            rw [adjust, hw2, total_setBal _ toId _ g hg2]
            omega
          · show ∀ t ∈ sm.history ++ [sm.accounts], NonNeg t ∧ total t + s ≤ intMax
            exact hhist'
  | rollback =>
    simp only [Op.depositAmount] at hbound hhist
    simp only [applyOp]
    rcases hL : sm.history.getLast? with _ | lastState
    · have h0 : sm.history = [] := by
        rcases sm.history.eq_nil_or_concat with h0 | ⟨L, b, hcc⟩
        · exact h0
        · rw [hcc, List.concat_eq_append, List.getLast?_concat] at hL
          exact absurd hL (by simp)
      rw [Rollback_empty sm h0]
      refine ⟨⟨hacc, by show total sm.accounts + s ≤ intMax; omega⟩, ?_⟩
      intro t ht
      obtain ⟨h1, h2⟩ := hhist t ht
      exact ⟨h1, by omega⟩
    · have hmem : lastState ∈ sm.history := mem_of_getLast?' _ _ hL
      simp only [Rollback, hL]
      obtain ⟨h1, h2⟩ := hhist lastState hmem
      refine ⟨⟨h1, by show total lastState + s ≤ intMax; omega⟩, ?_⟩
      intro t ht
      obtain ⟨h3, h4⟩ := hhist t (List.dropLast_subset _ ht)
      exact ⟨h3, by omega⟩

theorem bounded_runFrom (sm : StateMachine) (ops : List Op)
    (hamt : ∀ op ∈ ops, 0 ≤ op.amount)
    (hacc : NonNeg sm.accounts)
    (hbound : total sm.accounts + depositSum ops ≤ intMax)
    (hhist : ∀ t ∈ sm.history, NonNeg t ∧ total t + depositSum ops ≤ intMax) :
    NonNeg (runFrom sm ops).accounts := by
  induction ops generalizing sm with
  | nil => exact hacc
  | cons op rest ih =>
    rw [runFrom_cons]
    have hs : 0 ≤ depositSum rest :=
      depositSum_nonneg rest (fun o ho => hamt o (List.mem_cons_of_mem _ ho))
    have hstep := bounded_applyOp sm op (depositSum rest)
      (hamt op (List.mem_cons_self _ _)) hs hacc
      (by rw [depositSum_cons] at hbound; omega)
      (fun t ht => by
        obtain ⟨h1, h2⟩ := hhist t ht
        rw [depositSum_cons] at h2
        exact ⟨h1, by omega⟩)
    exact ih _ (fun o ho => hamt o (List.mem_cons_of_mem _ ho)) hstep.1.1 hstep.1.2 hstep.2

/-! Section: Conservation of the total balance.  Each wrapped update keeps
the sum of all balances congruent modulo 2^64 to the exact sum, which is
what Go's wrapping arithmetic preserves. -/

theorem total_applyOp_success (sm : StateMachine) (op : Op) (hmut : op.isMutating = true)
    (hok : (applyOp sm op).2 = none) :
    total (applyOp sm op).1.accounts % twoPow64 =
      (total sm.accounts + op.delta) % twoPow64 := by
  cases op with
  | rollback => simp [Op.isMutating] at hmut
  | deposit accountId amount =>
    simp only [applyOp] at hok ⊢
    rcases hb : getBal? sm.accounts accountId with _ | b
    · rw [Deposit_err sm accountId amount hb] at hok
      simp at hok
    · rw [Deposit_ok sm accountId amount b hb]
      have hg : getBal sm.accounts accountId = b := by simp [getBal, hb]
      simp only [Op.delta]
      rw [adjust, hg, total_setBal sm.accounts accountId _ b hb]
      have hw := wrap_emod (b + amount)
      simp only [twoPow64] at hw ⊢
      omega
  | withdraw accountId amount =>
    simp only [applyOp] at hok ⊢
    rcases hb : getBal? sm.accounts accountId with _ | cb
    · rw [Withdraw_err_unknown sm accountId amount hb] at hok
      simp at hok
    · by_cases hc : cb < amount
      · rw [Withdraw_err_insufficient sm accountId amount cb hb hc] at hok
        simp at hok
      · rw [Withdraw_ok sm accountId amount cb hb hc]
        simp only [Op.delta]
        rw [total_setBal sm.accounts accountId _ cb hb]
        have hw := wrap_emod (cb - amount)
        simp only [twoPow64] at hw ⊢
        omega
  | transfer fromId toId amount =>
    simp only [applyOp] at hok ⊢
    rcases hf : getBal? sm.accounts fromId with _ | bf
    · rw [Transfer_err_sender sm fromId toId amount hf] at hok
      simp at hok
    · rcases ht : getBal? sm.accounts toId with _ | bt
      · rw [Transfer_err_receiver sm fromId toId amount bf hf ht] at hok
        simp at hok
      · by_cases hc : getBal sm.accounts fromId < amount
        · rw [Transfer_err_insufficient sm fromId toId amount bf bt hf ht hc] at hok
          simp at hok
        · rw [Transfer_ok sm fromId toId amount bf bt hf ht hc]
          have hg : getBal sm.accounts fromId = bf := by simp [getBal, hf]
          have h1 : total (adjust sm.accounts fromId (-amount)) =
              total sm.accounts + wrap (bf + -amount) - bf := by
            rw [adjust, hg, total_setBal sm.accounts fromId _ bf hf]
          obtain ⟨g, hg2⟩ : ∃ g, getBal? (adjust sm.accounts fromId (-amount)) toId =
              some g := by
            by_cases hft : fromId = toId
            · subst hft
              exact ⟨wrap (getBal sm.accounts fromId + -amount),
                by rw [adjust]; exact getBal?_setBal_self _ _ _ (by rw [hf]; rfl)⟩
            · exact ⟨bt, by rw [adjust, getBal?_setBal_ne _ _ _ _ hft, ht]⟩
          have hg3 : getBal (adjust sm.accounts fromId (-amount)) toId = g := by
            simp [getBal, hg2]
          have h2 : total (adjust (adjust sm.accounts fromId (-amount)) toId amount) =
              total (adjust sm.accounts fromId (-amount)) + wrap (g + amount) - g := by
            rw [adjust, hg3, total_setBal _ toId _ g hg2]
          simp only [Op.delta]
          rw [h2, h1]
          have hw1 := wrap_emod (bf + -amount)
          have hw2 := wrap_emod (g + amount)
          simp only [twoPow64] at hw1 hw2 ⊢
          omega

theorem total_runOk (sm : StateMachine) (ops : List Op) (sm' : StateMachine)
    (hmut : ∀ op ∈ ops, op.isMutating = true) (hok : runOk sm ops = some sm') :
    total sm'.accounts % twoPow64 =
      (total sm.accounts + (ops.map Op.delta).sum) % twoPow64 := by
  induction ops generalizing sm with
  | nil =>
    simp only [runOk, Option.some.injEq] at hok
    subst hok
    simp
  | cons op rest ih =>
    simp only [runOk] at hok
    rcases hap : applyOp sm op with ⟨sm2, err⟩
    rw [hap] at hok
    cases err with
    | some e => simp at hok
    | none =>
      simp only at hok
      have h1 : total sm2.accounts % twoPow64 =
          (total sm.accounts + op.delta) % twoPow64 := by
        have h := total_applyOp_success sm op (hmut op (List.mem_cons_self _ _))
          (by rw [hap])
        rwa [hap] at h
      have h2 := ih sm2 (fun o ho => hmut o (List.mem_cons_of_mem _ ho)) hok
      simp only [List.map_cons, List.sum_cons, twoPow64] at h1 h2 ⊢
      omega

/-! Section: History depth -/

theorem runFrom_history_length (sm : StateMachine) (ops : List Op)
    (h : ∀ op ∈ ops, op.isMutating = true) :
    (runFrom sm ops).history.length = sm.history.length + ops.length := by
  induction ops generalizing sm with
  | nil => simp [runFrom]
  | cons op rest ih =>
    rw [runFrom_cons, ih _ (fun o ho => h o (List.mem_cons_of_mem _ ho)),
      applyOp_history sm op (h op (List.mem_cons_self _ _))]
    simp [List.length_append]
    omega

theorem Rollback_nonempty (sm : StateMachine) (h : sm.history ≠ []) :
    (Rollback sm).2 = none ∧ (Rollback sm).1.history.length = sm.history.length - 1 := by
  rcases sm with ⟨acc, hist⟩
  rcases hist.eq_nil_or_concat with rfl | ⟨L, t, rfl⟩
  · exact absurd rfl h
  · rw [List.concat_eq_append] at h ⊢
    rw [Rollback_concat]
    refine ⟨rfl, ?_⟩
    simp

theorem rollbacks_history_length (sm : StateMachine) (k : Nat) (hk : k ≤ sm.history.length) :
    (rollbacks sm k).history.length = sm.history.length - k := by
  induction k with
  | zero => simp [rollbacks]
  | succ k ih =>
    have hk' : k ≤ sm.history.length := Nat.le_of_succ_le hk
    have hlen := ih hk'
    have hne : (rollbacks sm k).history ≠ [] := by
      intro h0
      rw [h0] at hlen
      simp at hlen
      omega
    have hr := Rollback_nonempty _ hne
    show (Rollback (rollbacks sm k)).1.history.length = sm.history.length - (k + 1)
    rw [hr.2, hlen]
    omega

theorem rollbacks_succeed (sm : StateMachine) (k : Nat) (hk : k < sm.history.length) :
    (Rollback (rollbacks sm k)).2 = none := by
  have hlen := rollbacks_history_length sm k (Nat.le_of_lt hk)
  have hne : (rollbacks sm k).history ≠ [] := by
    intro h0
    rw [h0] at hlen
    simp at hlen
    omega
  exact (Rollback_nonempty _ hne).1

theorem rollbacks_exhausted (sm : StateMachine) :
    (Rollback (rollbacks sm sm.history.length)).2 = some SMError.nothingToRollback := by
  have hlen := rollbacks_history_length sm sm.history.length le_rfl
  have h0 : (rollbacks sm sm.history.length).history = [] :=
    List.length_eq_zero.mp (by omega)
  rw [Rollback_empty _ h0]

/-! Section: Claims -/

/-- C1 (counterexample): in the concrete scenario — accounts
{acc1:1000, acc2:500, acc3:300}, then Deposit(acc1,200), Withdraw(acc2,100),
Transfer(acc1,acc3,150) and the failing Withdraw(acc3,500) — two Rollback
calls do NOT restore the initial balances: they yield
{acc1:1200, acc2:400, acc3:300}, because the failed withdraw also pushed a
snapshot that the first rollback consumes. -/
theorem C1_counterexample :
    (rollbacks (run initTable [Op.deposit "acc1" 200, Op.withdraw "acc2" 100,
        Op.transfer "acc1" "acc3" 150, Op.withdraw "acc3" 500]) 2).accounts =
      [("acc1", 1200), ("acc2", 400), ("acc3", 300)]
  ∧ (rollbacks (run initTable [Op.deposit "acc1" 200, Op.withdraw "acc2" 100,
        Op.transfer "acc1" "acc3" 150, Op.withdraw "acc3" 500]) 2).accounts ≠ initTable := by
  constructor
  · decide
  · decide

/-- C1 (amended): the scenario unfolds as claimed — acc1=1200 after the
deposit, acc2=400 after the withdraw, acc1=1050/acc3=450 after the transfer,
and Withdraw(acc3,500) fails with the insufficient-funds error carrying the
available balance 450 and leaves the balances unchanged — but restoring
{acc1:1000, acc2:500, acc3:300} takes exactly four Rollback calls, not two,
since the failed withdraw also consumed a history slot. -/
theorem C1_scenario_amended :
    (run initTable [Op.deposit "acc1" 200]).accounts =
      [("acc1", 1200), ("acc2", 500), ("acc3", 300)]
  ∧ (run initTable [Op.deposit "acc1" 200, Op.withdraw "acc2" 100]).accounts =
      [("acc1", 1200), ("acc2", 400), ("acc3", 300)]
  ∧ (run initTable [Op.deposit "acc1" 200, Op.withdraw "acc2" 100,
      Op.transfer "acc1" "acc3" 150]).accounts =
      [("acc1", 1050), ("acc2", 400), ("acc3", 450)]
  ∧ (Withdraw (run initTable [Op.deposit "acc1" 200, Op.withdraw "acc2" 100,
      Op.transfer "acc1" "acc3" 150]) "acc3" 500).2 =
      some (SMError.insufficientBalance 450)
  ∧ (SMError.insufficientBalance 450).isInsufficientFunds = true
  ∧ (Withdraw (run initTable [Op.deposit "acc1" 200, Op.withdraw "acc2" 100,
      Op.transfer "acc1" "acc3" 150]) "acc3" 500).1.accounts =
      [("acc1", 1050), ("acc2", 400), ("acc3", 450)]
  ∧ (rollbacks (run initTable [Op.deposit "acc1" 200, Op.withdraw "acc2" 100,
      Op.transfer "acc1" "acc3" 150, Op.withdraw "acc3" 500]) 4).accounts = initTable := by
  refine ⟨?_, ?_, ?_, ?_, ?_, ?_, ?_⟩ <;> decide

/-- C2: for every state and every single mutating call (Deposit, Withdraw
or Transfer) that returns success, invoking Rollback immediately afterwards
succeeds and restores exactly the account balances (indeed the entire
machine) that held immediately before the mutating call. -/
theorem C2_rollback_inverse (sm : StateMachine) (op : Op)
    (hmut : op.isMutating = true) (_hok : (applyOp sm op).2 = none) :
    Rollback (applyOp sm op).1 = (sm, none) :=
  Rollback_after_mutating sm op hmut

/-- C2 witness: a concrete successful deposit followed by a rollback. -/
theorem C2_witness :
    (Op.deposit "acc1" 200).isMutating = true
  ∧ (applyOp (mkMachine initTable) (Op.deposit "acc1" 200)).2 = none
  ∧ Rollback (applyOp (mkMachine initTable) (Op.deposit "acc1" 200)).1 =
      (mkMachine initTable, none) :=
  ⟨by decide, by decide,
    C2_rollback_inverse (mkMachine initTable) (Op.deposit "acc1" 200) (by decide) (by decide)⟩

/-- C3: every Deposit, Withdraw or Transfer call — also one that fails
validation — appends exactly one snapshot of the pre-call table to the
history, so a failed call still consumes one history slot, and an explicit
Rollback performed right after the call (failed or not) restores exactly
the pre-call balances. -/
theorem C3_snapshot_before_validation (sm : StateMachine) (op : Op)
    (hmut : op.isMutating = true) :
    (applyOp sm op).1.history = sm.history ++ [sm.accounts]
  ∧ Rollback (applyOp sm op).1 = (sm, none) :=
  ⟨applyOp_history sm op hmut, Rollback_after_mutating sm op hmut⟩

/-- C3 witness: a withdraw that fails validation (insufficient funds) still
leaves a snapshot, and a rollback afterwards restores the pre-call state. -/
theorem C3_witness :
    (Op.withdraw "acc1" 9999).isMutating = true
  ∧ (applyOp (mkMachine initTable) (Op.withdraw "acc1" 9999)).1.history =
      (mkMachine initTable).history ++ [(mkMachine initTable).accounts]
  ∧ Rollback (applyOp (mkMachine initTable) (Op.withdraw "acc1" 9999)).1 =
      (mkMachine initTable, none) :=
  ⟨by decide,
    (C3_snapshot_before_validation (mkMachine initTable) (Op.withdraw "acc1" 9999) (by decide)).1,
    (C3_snapshot_before_validation (mkMachine initTable) (Op.withdraw "acc1" 9999) (by decide)).2⟩

/-- C4 (counterexample): balances can go negative — Deposit validates
neither the sign nor the magnitude of its amount, so from the non-negative
construction table a single Deposit(acc1,-2000) drives acc1 to -1000, and
even with a non-negative amount a single Deposit(acc1, 2^63-1) wraps acc1
to a negative value. -/
theorem C4_counterexample :
    (NonNeg initTable ∧ ¬ NonNeg (run initTable [Op.deposit "acc1" (-2000)]).accounts)
  ∧ ((0 : Int) ≤ intMax
      ∧ ¬ NonNeg (run initTable [Op.deposit "acc1" intMax]).accounts) := by
  refine ⟨⟨?_, ?_⟩, ?_, ?_⟩ <;> decide

/-- C4 (amended): for every state reachable from a construction-time table
with non-negative balances by Deposit, Withdraw, Transfer and Rollback
calls whose amounts are all non-negative, provided the initial sum of
balances plus the total deposited amount fits in a 64-bit int (so no
addition ever overflows), every account balance stays non-negative. -/
theorem C4_nonneg_amended (init : Table) (ops : List Op)
    (h0 : NonNeg init) (hamt : ∀ op ∈ ops, 0 ≤ op.amount)
    (hbound : total init + depositSum ops ≤ intMax) :
    NonNeg (run init ops).accounts :=
  bounded_runFrom (mkMachine init) ops hamt h0 hbound
    (by intro t ht; simp [mkMachine] at ht)

/-- C4 witness: a concrete non-negative-amount, non-overflowing run keeps
balances non-negative. -/
theorem C4_witness :
    NonNeg initTable
  ∧ (∀ op ∈ ([Op.deposit "acc1" 200, Op.withdraw "acc1" 100, Op.rollback] : List Op),
      0 ≤ op.amount)
  ∧ total initTable +
      depositSum [Op.deposit "acc1" 200, Op.withdraw "acc1" 100, Op.rollback] ≤ intMax
  ∧ NonNeg (run initTable [Op.deposit "acc1" 200, Op.withdraw "acc1" 100,
      Op.rollback]).accounts :=
  ⟨by decide, by decide, by decide,
    C4_nonneg_amended initTable [Op.deposit "acc1" 200, Op.withdraw "acc1" 100, Op.rollback]
      (by decide) (by decide) (by decide)⟩

/-- C5 (counterexample): two failure modes of the claim.  Over arbitrary
states (here one reachable by a negative deposit) a successful
self-Transfer can leave the source balance negative: after
Deposit(acc1,-1001), Transfer(acc1,acc1,-1) succeeds and leaves acc1 at
-1.  And with wrapping arithmetic, Withdraw(a,-1) from a balance of 2^63-1
passes the balance guard, succeeds, and wraps the balance to -2^63. -/
theorem C5_counterexample :
    ((Transfer (run initTable [Op.deposit "acc1" (-1001)]) "acc1" "acc1" (-1)).2 = none
      ∧ getBal (Transfer (run initTable [Op.deposit "acc1" (-1001)])
          "acc1" "acc1" (-1)).1.accounts "acc1" < 0)
  ∧ ((Withdraw (mkMachine [("a", intMax)]) "a" (-1)).2 = none
      ∧ getBal (Withdraw (mkMachine [("a", intMax)]) "a" (-1)).1.accounts "a" < 0) := by
  refine ⟨⟨?_, ?_⟩, ?_, ?_⟩ <;> decide

/-- C5 (amended): for every state and every amount of any sign, provided
the debit does not overflow (the source balance minus the amount fits
under 2^63, which holds in particular for every non-negative amount), a
successful Withdraw leaves the account's balance non-negative and a
successful Transfer between distinct accounts leaves the source balance
non-negative; a successful self-Transfer on an in-range state leaves the
source balance exactly unchanged (hence non-negative only when it already
was). -/
theorem C5_nonneg_amended (sm : StateMachine) (accountId fromId toId : String)
    (amount : Int) :
    ((Withdraw sm accountId amount).2 = none →
      getBal sm.accounts accountId - amount ≤ intMax →
      0 ≤ getBal (Withdraw sm accountId amount).1.accounts accountId)
  ∧ (fromId ≠ toId → (Transfer sm fromId toId amount).2 = none →
      getBal sm.accounts fromId - amount ≤ intMax →
      0 ≤ getBal (Transfer sm fromId toId amount).1.accounts fromId)
  ∧ (InRange sm.accounts → (Transfer sm fromId fromId amount).2 = none →
      getBal sm.accounts fromId - amount ≤ intMax →
      getBal (Transfer sm fromId fromId amount).1.accounts fromId =
        getBal sm.accounts fromId) := by
  refine ⟨?_, ?_, ?_⟩
  · intro hok hno
    rcases hb : getBal? sm.accounts accountId with _ | cb
    · rw [Withdraw_err_unknown sm accountId amount hb] at hok
      simp at hok
    · by_cases hc : cb < amount
      · rw [Withdraw_err_insufficient sm accountId amount cb hb hc] at hok
        simp at hok
      · rw [Withdraw_ok sm accountId amount cb hb hc]
        dsimp only
        have hg : getBal sm.accounts accountId = cb := by simp [getBal, hb]
        rw [hg] at hno
        have hw : wrap (cb - amount) = cb - amount :=
          wrap_eq_self_of_nonneg _ (by omega) hno
        have hs : (getBal? sm.accounts accountId).isSome = true := by rw [hb]; rfl
        have hsb := getBal?_setBal_self sm.accounts accountId (wrap (cb - amount)) hs
        simp only [getBal, hsb, Option.getD_some]
        rw [hw]
        omega
  · intro hne hok hno
    rcases hf : getBal? sm.accounts fromId with _ | bf
    · rw [Transfer_err_sender sm fromId toId amount hf] at hok
      simp at hok
    · rcases ht2 : getBal? sm.accounts toId with _ | bt
      · rw [Transfer_err_receiver sm fromId toId amount bf hf ht2] at hok
        simp at hok
      · by_cases hc : getBal sm.accounts fromId < amount
        · rw [Transfer_err_insufficient sm fromId toId amount bf bt hf ht2 hc] at hok
          simp at hok
        · rw [Transfer_ok sm fromId toId amount bf bt hf ht2 hc]
          dsimp only
          have hg : getBal sm.accounts fromId = bf := by simp [getBal, hf]
          rw [hg] at hc hno
          have hs : (getBal? sm.accounts fromId).isSome = true := by rw [hf]; rfl
          have hw : wrap (bf + -amount) = bf - amount := by
            have he : bf + -amount = bf - amount := by ring
            rw [he]
            exact wrap_eq_self_of_nonneg _ (by omega) hno
          have h1 : getBal? (adjust sm.accounts fromId (-amount)) fromId =
              some (bf - amount) := by
            rw [adjust, hg, hw]
            exact getBal?_setBal_self _ _ _ hs
          have h2 : getBal? (adjust (adjust sm.accounts fromId (-amount)) toId amount)
              fromId = some (bf - amount) := by
            rw [adjust, getBal?_setBal_ne _ toId fromId _ (fun hE => hne hE.symm)]
            exact h1
          simp only [getBal, h2, Option.getD_some]
          omega
  · intro hin hok hno
    rcases hf : getBal? sm.accounts fromId with _ | bf
    · rw [Transfer_err_sender sm fromId fromId amount hf] at hok
      simp at hok
    · by_cases hc : getBal sm.accounts fromId < amount
      · rw [Transfer_err_insufficient sm fromId fromId amount bf bf hf hf hc] at hok
        simp at hok
      · rw [Transfer_ok sm fromId fromId amount bf bf hf hf hc]
        dsimp only
        have hg : getBal sm.accounts fromId = bf := by simp [getBal, hf]
        rw [hg] at hc hno
        have hs : (getBal? sm.accounts fromId).isSome = true := by rw [hf]; rfl
        obtain ⟨hbfm, hbfM⟩ := hin (fromId, bf) (mem_of_getBal? sm.accounts fromId bf hf)
        have hw : wrap (bf + -amount) = bf - amount := by
          have he : bf + -amount = bf - amount := by ring
          rw [he]
          exact wrap_eq_self_of_nonneg _ (by omega) hno
        have h1 : getBal? (adjust sm.accounts fromId (-amount)) fromId =
            some (bf - amount) := by
          rw [adjust, hg, hw]
          exact getBal?_setBal_self _ _ _ hs
        have hs1 : (getBal? (adjust sm.accounts fromId (-amount)) fromId).isSome = true := by
          rw [h1]
          rfl
        have hg1 : getBal (adjust sm.accounts fromId (-amount)) fromId = bf - amount := by
          simp [getBal, h1]
        have hw2 : wrap (bf - amount + amount) = bf := by
          have he : bf - amount + amount = bf := by ring
          rw [he]
          exact wrap_eq_self _ hbfm hbfM
        have h2 : getBal? (adjust (adjust sm.accounts fromId (-amount)) fromId amount)
            fromId = some bf := by
          rw [adjust, hg1, hw2]
          exact getBal?_setBal_self _ _ _ hs1
        simp only [getBal, h2, hf, Option.getD_some]

/-- C5 witness: a concrete successful withdraw and a concrete successful
transfer between distinct accounts, both within range, both leaving the
source balance non-negative. -/
theorem C5_witness :
    0 ≤ getBal (Withdraw (mkMachine initTable) "acc1" 1000).1.accounts "acc1"
  ∧ 0 ≤ getBal (Transfer (mkMachine initTable) "acc1" "acc3" 1000).1.accounts "acc1" :=
  ⟨(C5_nonneg_amended (mkMachine initTable) "acc1" "acc1" "acc3" 1000).1
      (by decide) (by decide),
    (C5_nonneg_amended (mkMachine initTable) "acc1" "acc1" "acc3" 1000).2.1
      (by decide) (by decide) (by decide)⟩

/-- C6: for every reachable state and every account identifier absent from
the construction-time table, any Deposit, Withdraw or Transfer referencing
that identifier returns an unknown-account failure and leaves every
account balance unchanged. -/
theorem C6_unknown_account (init : Table) (ops : List Op) (accountId other : String)
    (amount : Int) (h : getBal? init accountId = none) :
    ((∃ e, (Deposit (run init ops) accountId amount).2 = some e ∧
        e.isUnknownAccount = true)
      ∧ (Deposit (run init ops) accountId amount).1.accounts = (run init ops).accounts)
  ∧ ((∃ e, (Withdraw (run init ops) accountId amount).2 = some e ∧
        e.isUnknownAccount = true)
      ∧ (Withdraw (run init ops) accountId amount).1.accounts = (run init ops).accounts)
  ∧ ((∃ e, (Transfer (run init ops) accountId other amount).2 = some e ∧
        e.isUnknownAccount = true)
      ∧ (Transfer (run init ops) accountId other amount).1.accounts =
          (run init ops).accounts)
  ∧ ((∃ e, (Transfer (run init ops) other accountId amount).2 = some e ∧
        e.isUnknownAccount = true)
      ∧ (Transfer (run init ops) other accountId amount).1.accounts =
          (run init ops).accounts) := by
  have hkeys := (keysInv_run init ops).1
  have hnone : getBal? (run init ops).accounts accountId = none := by
    rw [getBal?_eq_none_iff] at h ⊢
    rw [hkeys]
    exact h
  refine ⟨?_, ?_, ?_, ?_⟩
  · rw [Deposit_err (run init ops) accountId amount hnone]
    exact ⟨⟨SMError.invalidDeposit accountId, rfl, rfl⟩, rfl⟩
  · rw [Withdraw_err_unknown (run init ops) accountId amount hnone]
    exact ⟨⟨SMError.invalidWithdraw accountId, rfl, rfl⟩, rfl⟩
  · rw [Transfer_err_sender (run init ops) accountId other amount hnone]
    exact ⟨⟨SMError.invalidSender accountId, rfl, rfl⟩, rfl⟩
  · rcases ho : getBal? (run init ops).accounts other with _ | bo
    · rw [Transfer_err_sender (run init ops) other accountId amount ho]
      exact ⟨⟨SMError.invalidSender other, rfl, rfl⟩, rfl⟩
    · rw [Transfer_err_receiver (run init ops) other accountId amount bo ho hnone]
      exact ⟨⟨SMError.invalidReceiver accountId, rfl, rfl⟩, rfl⟩

/-- C6 witness: depositing to the unknown identifier "ghost" leaves the
balances untouched. -/
theorem C6_witness :
    (Deposit (run initTable []) "ghost" 5).1.accounts = (run initTable []).accounts :=
  (C6_unknown_account initTable [] "ghost" "acc1" 5 (by decide)).1.2

/-- C7 (counterexample): exact conservation fails under wrapping — the
successful Deposit(acc1, 2^63-1) on the initial table wraps, so the
resulting sum of balances differs from the initial sum plus the deposited
amount. -/
theorem C7_counterexample :
    runOk (mkMachine initTable) [Op.deposit "acc1" intMax] =
      some (run initTable [Op.deposit "acc1" intMax])
  ∧ total (run initTable [Op.deposit "acc1" intMax]).accounts ≠
      total (mkMachine initTable).accounts +
        (([Op.deposit "acc1" intMax] : List Op).map Op.delta).sum := by
  constructor
  · decide
  · decide

/-- C7 (amended): for every all-successful sequence of Deposit, Withdraw
and Transfer calls, the final sum of balances is congruent modulo 2^64 —
the modulus of Go's wrapping 64-bit int arithmetic — to the initial sum
plus deposits minus withdrawals; in particular every successful Transfer
leaves the sum of all balances unchanged modulo 2^64. -/
theorem C7_conservation_amended :
    (∀ (sm sm' : StateMachine) (ops : List Op),
      (∀ op ∈ ops, op.isMutating = true) → runOk sm ops = some sm' →
      total sm'.accounts % twoPow64 =
        (total sm.accounts + (ops.map Op.delta).sum) % twoPow64)
  ∧ (∀ (sm : StateMachine) (fromId toId : String) (amount : Int),
      (Transfer sm fromId toId amount).2 = none →
      total (Transfer sm fromId toId amount).1.accounts % twoPow64 =
        total sm.accounts % twoPow64) := by
  constructor
  · intro sm sm' ops hmut hok
    exact total_runOk sm ops sm' hmut hok
  · intro sm fromId toId amount hok
    have h := total_applyOp_success sm (Op.transfer fromId toId amount) rfl hok
    simpa [applyOp, Op.delta] using h

/-- C7 witness: a deposit of 200, a withdraw of 100 and a transfer change
the total by exactly 100 modulo 2^64. -/
theorem C7_witness :
    total (run initTable [Op.deposit "acc1" 200, Op.withdraw "acc2" 100,
      Op.transfer "acc1" "acc3" 150]).accounts % twoPow64 =
      (total initTable + 100) % twoPow64 :=
  (C7_conservation_amended.1 (mkMachine initTable)
    (run initTable [Op.deposit "acc1" 200, Op.withdraw "acc2" 100,
      Op.transfer "acc1" "acc3" 150])
    [Op.deposit "acc1" 200, Op.withdraw "acc2" 100, Op.transfer "acc1" "acc3" 150]
    (by decide) (by decide)).trans (by decide)

/-- C8: Rollback on an empty history fails with the empty-history error and
changes nothing (table and log), and after n mutating calls — successful or
not — the first n Rollback calls succeed and the (n+1)-th is the first to
fail. -/
theorem C8_history_exhaustion (sm0 : StateMachine) (init : Table) (ops : List Op)
    (k : Nat) (hmut : ∀ op ∈ ops, op.isMutating = true) :
    (sm0.history = [] → Rollback sm0 = (sm0, some SMError.nothingToRollback))
  ∧ (k < ops.length → (Rollback (rollbacks (run init ops) k)).2 = none)
  ∧ (Rollback (rollbacks (run init ops) ops.length)).2 =
      some SMError.nothingToRollback := by
  have hlen : (run init ops).history.length = ops.length := by
    show (runFrom (mkMachine init) ops).history.length = ops.length
    rw [runFrom_history_length _ _ hmut]
    simp [mkMachine]
  refine ⟨fun h0 => Rollback_empty sm0 h0, fun hk => ?_, ?_⟩
  · exact rollbacks_succeed _ k (by rw [hlen]; exact hk)
  · have h := rollbacks_exhausted (run init ops)
    rwa [hlen] at h

/-- C8 witness: with two mutating calls on the books (one of them failing),
the first two rollbacks succeed and the third fails. -/
theorem C8_witness :
    Rollback (mkMachine initTable) = (mkMachine initTable, some SMError.nothingToRollback)
  ∧ (Rollback (rollbacks (run initTable [Op.deposit "acc1" 200,
      Op.withdraw "acc1" 9999]) 0)).2 = none
  ∧ (Rollback (rollbacks (run initTable [Op.deposit "acc1" 200,
      Op.withdraw "acc1" 9999]) 2)).2 = some SMError.nothingToRollback :=
  ⟨(C8_history_exhaustion (mkMachine initTable) initTable
      [Op.deposit "acc1" 200, Op.withdraw "acc1" 9999] 0 (by decide)).1 rfl,
    (C8_history_exhaustion (mkMachine initTable) initTable
      [Op.deposit "acc1" 200, Op.withdraw "acc1" 9999] 0 (by decide)).2.1 (by decide),
    (C8_history_exhaustion (mkMachine initTable) initTable
      [Op.deposit "acc1" 200, Op.withdraw "acc1" 9999] 0 (by decide)).2.2⟩

/-- C9: for every reachable state the key column of the live table (and of
every history snapshot) is exactly the construction-time key column: no
call, successful or failed, adds or removes an account. -/
theorem C9_keys_fixed (init : Table) (ops : List Op) :
    keys (run init ops).accounts = keys init
  ∧ ∀ t ∈ (run init ops).history, keys t = keys init :=
  keysInv_run init ops

end Vaultflow
